import Mathlib

/-!
Shallow embedding of the runtime dispatcher of the union TypeScript library
(src/index.ts): the function `match`, which dispatches a tagged value to a
handler table, and its curried form `matches`.  The compile-time-only type
declarations of the source have no runtime content and are not embedded;
the two exported functions are embedded directly.
-/

namespace UnionSpec

/-- A tagged value: a record carrying the string-valued discriminant field
`__type` together with a payload, mirroring the `Signature` type of the
source (`{ readonly __type: K }` intersected with the payload fields). -/
structure Tagged (P : Type) where
  __type : String
  payload : P
deriving DecidableEq, Repr

/-- A JavaScript `Error` value as the dispatcher constructs it: it carries
only a message string (the source uses `new Error(...)`, no subclass and no
error code). -/
structure JsError where
  message : String
deriving DecidableEq, Repr

/-- The error thrown by the dispatcher when no handler applies.  The
message string reproduces the source verbatim, including its misspelling. -/
def patternUnmatchedError : JsError := ⟨"Pattern unmacthed"⟩

/-- A handler table as the dispatcher sees it at runtime: the
own-enumerable entries of the `matchers` object in definition order, each a
string key paired with a handler function (`Object.entries(matchers)`). -/
abbrev Matchers (P Out : Type) := List (String × (Tagged P → Out))

/-- The keys of a handler table. -/
def keysOf (m : Matchers P Out) : List String := m.map Prod.fst

variable {P Out : Type}

/-- The for-loop of `match`: walk the entries in order and, at the first
entry whose key equals the input's discriminant, return that handler's
result applied to the input. -/
def scanEntries (input : Tagged P) : Matchers P Out → Option Out
  | [] => none
  | (key, handler) :: rest =>
    if input.__type = key then some (handler input) else scanEntries input rest

/-- The wildcard fallback of `match`: the membership test and property
access for the key "*" performed after the loop. -/
def starLookup : Matchers P Out → Option (Tagged P → Out)
  | [] => none
  | (key, handler) :: rest =>
    if key = "*" then some handler else starLookup rest

/-- The dispatcher `match` of the source: scan for an exact key match,
fall back to the wildcard entry, otherwise throw the pattern-unmatched
error. -/
def matchUnion (input : Tagged P) (matchers : Matchers P Out) :
    Except JsError Out :=
  match scanEntries input matchers with
  | some out => .ok out
  | none =>
    match starLookup matchers with
    | some handler => .ok (handler input)
    | none => .error patternUnmatchedError

/-- The curried form `matches` of the source (`matches` is a reserved word
in Lean, hence the name): a closure over the handler table that runs the
whole dispatch on each input it receives. -/
def matchesUnion (matchers : Matchers P Out) : Tagged P → Except JsError Out :=
  fun input => matchUnion input matchers

/-- The loop of `match` instrumented with a count of handler invocations:
identical control flow, plus how many caller-supplied handlers ran. -/
def scanEntriesCount (input : Tagged P) : Matchers P Out → Option Out × Nat
  | [] => (none, 0)
  | (key, handler) :: rest =>
    if input.__type = key then (some (handler input), 1)
    else scanEntriesCount input rest

/-- The dispatcher instrumented with a count of handler invocations. -/
def matchCount (input : Tagged P) (matchers : Matchers P Out) :
    Except JsError Out × Nat :=
  match scanEntriesCount input matchers with
  | (some out, n) => (.ok out, n)
  | (none, n) =>
    match starLookup matchers with
    | some handler => (.ok (handler input), n + 1)
    | none => (.error patternUnmatchedError, n)

/-- The loop of `match` with an ambient world `w` and the input variable
threaded through every iteration, recording that the loop body neither
reads nor writes anything beyond its arguments. -/
def scanThread {σ : Type} (w : σ) (input : Tagged P) :
    Matchers P Out → Option Out × σ × Tagged P
  | [] => (none, w, input)
  | (key, handler) :: rest =>
    if input.__type = key then (some (handler input), w, input)
    else scanThread w input rest

/-- The dispatcher with an ambient world and both of its arguments
threaded through the whole call, returned alongside the result. -/
def matchThread {σ : Type} (w : σ) (input : Tagged P)
    (matchers : Matchers P Out) :
    Except JsError Out × σ × Tagged P × Matchers P Out :=
  match scanThread w input matchers with
  | (some out, w2, v2) => (.ok out, w2, v2, matchers)
  | (none, w2, v2) =>
    match starLookup matchers with
    | some handler => (.ok (handler v2), w2, v2, matchers)
    | none => (.error patternUnmatchedError, w2, v2, matchers)

/-- The key-only scan: which handler the loop selects for a discriminant
string, independent of the rest of the input value. -/
def scanKey (t : String) : Matchers P Out → Option (Tagged P → Out)
  | [] => none
  | (key, handler) :: rest =>
    if t = key then some handler else scanKey t rest

/-- The handler the whole dispatch selects for a discriminant string:
the exact-match scan first, then the wildcard entry. -/
def selectHandler (t : String) (m : Matchers P Out) :
    Option (Tagged P → Out) :=
  match scanKey t m with
  | some handler => some handler
  | none => starLookup m

theorem scanKey_none_iff (t : String) (m : Matchers P Out) :
    scanKey t m = none ↔ t ∉ keysOf m := by
  induction m with
  | nil => simp [scanKey, keysOf]
  | cons e rest ih =>
    obtain ⟨k, g⟩ := e
    by_cases hk : t = k
    · simp [scanKey, keysOf, hk]
    · simp [scanKey, keysOf, hk, ih]

theorem starLookup_none_iff (m : Matchers P Out) :
    starLookup m = none ↔ "*" ∉ keysOf m := by
  induction m with
  | nil => simp [starLookup, keysOf]
  | cons e rest ih =>
    obtain ⟨k, g⟩ := e
    by_cases hk : k = "*"
    · simp [starLookup, keysOf, hk]
    · simp [starLookup, keysOf, hk, ih, Ne.symm hk]

theorem scanKey_of_mem (t : String) (h : Tagged P → Out)
    (m : Matchers P Out) (hnod : (keysOf m).Nodup) (hmem : (t, h) ∈ m) :
    scanKey t m = some h := by
  induction m with
  | nil => cases hmem
  | cons e rest ih =>
    obtain ⟨k, g⟩ := e
    simp only [keysOf, List.map_cons, List.nodup_cons] at hnod
    rcases List.mem_cons.mp hmem with heq | htail
    · have ht : t = k := congrArg Prod.fst heq
      have hg : h = g := congrArg Prod.snd heq
      subst ht
      subst hg
      simp [scanKey]
    · have htk : t ≠ k := by
        intro hcon
        apply hnod.1
        rw [← hcon]
        exact List.mem_map_of_mem Prod.fst htail
      simp only [scanKey]
      rw [if_neg htk]
      exact ih hnod.2 htail

theorem starLookup_of_mem (h : Tagged P → Out) (m : Matchers P Out)
    (hnod : (keysOf m).Nodup) (hmem : ("*", h) ∈ m) :
    starLookup m = some h := by
  induction m with
  | nil => cases hmem
  | cons e rest ih =>
    obtain ⟨k, g⟩ := e
    simp only [keysOf, List.map_cons, List.nodup_cons] at hnod
    rcases List.mem_cons.mp hmem with heq | htail
    · have ht : k = "*" := (congrArg Prod.fst heq).symm
      have hg : h = g := congrArg Prod.snd heq
      subst hg
      simp [starLookup, ht]
    · have htk : k ≠ "*" := by
        intro hcon
        apply hnod.1
        rw [hcon]
        exact List.mem_map_of_mem Prod.fst htail
      simp only [starLookup]
      rw [if_neg htk]
      exact ih hnod.2 htail

theorem scanEntries_eq (v : Tagged P) (m : Matchers P Out) :
    scanEntries v m = (scanKey v.__type m).map (fun f => f v) := by
  induction m with
  | nil => rfl
  | cons e rest ih =>
    obtain ⟨k, g⟩ := e
    by_cases hk : v.__type = k
    · simp [scanEntries, scanKey, hk]
    · simp [scanEntries, scanKey, hk, ih]

theorem matchUnion_eq_select (v : Tagged P) (m : Matchers P Out) :
    matchUnion v m =
      (selectHandler v.__type m).elim (Except.error patternUnmatchedError)
        (fun f => .ok (f v)) := by
  rcases hsk : scanKey v.__type m with _ | f
  · rcases hsl : starLookup m with _ | g
    · simp [matchUnion, selectHandler, scanEntries_eq, hsk, hsl]
    · simp [matchUnion, selectHandler, scanEntries_eq, hsk, hsl]
  · simp [matchUnion, selectHandler, scanEntries_eq, hsk]

theorem scanEntriesCount_eq (v : Tagged P) (m : Matchers P Out) :
    scanEntriesCount v m =
      (scanEntries v m, if (scanEntries v m).isSome then 1 else 0) := by
  induction m with
  | nil => rfl
  | cons e rest ih =>
    obtain ⟨k, g⟩ := e
    by_cases hk : v.__type = k
    · simp [scanEntriesCount, scanEntries, hk]
    · simp [scanEntriesCount, scanEntries, hk, ih]

theorem matchCount_fst (v : Tagged P) (m : Matchers P Out) :
    (matchCount v m).1 = matchUnion v m := by
  unfold matchCount matchUnion
  rw [scanEntriesCount_eq]
  rcases scanEntries v m with _ | out
  · rcases starLookup m with _ | g <;> simp
  · simp

theorem matchCount_calls (v : Tagged P) (m : Matchers P Out) :
    (matchCount v m).2 = if (matchUnion v m).isOk then 1 else 0 := by
  unfold matchCount matchUnion
  rw [scanEntriesCount_eq]
  rcases scanEntries v m with _ | out
  · rcases starLookup m with _ | g <;> simp [Except.isOk, Except.toBool]
  · simp [Except.isOk, Except.toBool]

theorem scanThread_eq {σ : Type} (w : σ) (v : Tagged P)
    (m : Matchers P Out) :
    scanThread w v m = (scanEntries v m, w, v) := by
  induction m with
  | nil => rfl
  | cons e rest ih =>
    obtain ⟨k, g⟩ := e
    by_cases hk : v.__type = k
    · simp [scanThread, scanEntries, hk]
    · simp [scanThread, scanEntries, hk, ih]

theorem matchThread_eq {σ : Type} (w : σ) (v : Tagged P)
    (m : Matchers P Out) :
    matchThread w v m = (matchUnion v m, w, v, m) := by
  unfold matchThread matchUnion
  rw [scanThread_eq]
  rcases scanEntries v m with _ | out
  · rcases starLookup m with _ | g <;> simp
  · simp

theorem matchUnion_error_iff (v : Tagged P) (m : Matchers P Out)
    (e : JsError) :
    matchUnion v m = .error e ↔
      (e = patternUnmatchedError ∧ v.__type ∉ keysOf m ∧
        "*" ∉ keysOf m) := by
  rcases hsk : scanKey v.__type m with _ | f
  · have habs : v.__type ∉ keysOf m := (scanKey_none_iff _ _).mp hsk
    rcases hsl : starLookup m with _ | g
    · have habs2 : "*" ∉ keysOf m := (starLookup_none_iff _).mp hsl
      have hrun : matchUnion v m = .error patternUnmatchedError := by
        simp [matchUnion, scanEntries_eq, hsk, hsl]
      rw [hrun]
      simp [habs, habs2, eq_comm]
    · have hstar : "*" ∈ keysOf m := by
        by_contra hc
        rw [(starLookup_none_iff _).mpr hc] at hsl
        simp at hsl
      have hrun : matchUnion v m = .ok (g v) := by
        simp [matchUnion, scanEntries_eq, hsk, hsl]
      rw [hrun]
      simp [hstar]
  · have hkey : v.__type ∈ keysOf m := by
      by_contra hc
      rw [(scanKey_none_iff _ _).mpr hc] at hsk
      simp at hsk
    have hrun : matchUnion v m = .ok (f v) := by
      simp [matchUnion, scanEntries_eq, hsk]
    rw [hrun]
    simp [hkey]

/-- C1: for every tagged value whose discriminant has an exact entry in a
handler table with distinct keys, `match` returns exactly that entry's
handler applied to the value, and exactly one handler is invoked, so no
other handler (wildcard included) runs. -/
theorem match_exact_entry (v : Tagged P) (m : Matchers P Out)
    (h : Tagged P → Out) (hnod : (keysOf m).Nodup)
    (hmem : (v.__type, h) ∈ m) :
    matchUnion v m = .ok (h v) ∧ (matchCount v m).2 = 1 := by
  have hsk : scanKey v.__type m = some h := scanKey_of_mem _ _ _ hnod hmem
  have hse : scanEntries v m = some (h v) := by
    rw [scanEntries_eq, hsk]
    rfl
  have hok : matchUnion v m = .ok (h v) := by
    simp [matchUnion, hse]
  refine ⟨hok, ?_⟩
  rw [matchCount_calls, hok]
  rfl

theorem match_exact_entry_witness :
    matchUnion (Tagged.mk "text" ())
        [("text", fun _ => (1 : Nat)), ("binary", fun _ => 2)] =
      .ok 1 ∧
    (matchCount (Tagged.mk "text" ())
        [("text", fun _ => (1 : Nat)), ("binary", fun _ => 2)]).2 = 1 :=
  match_exact_entry (Tagged.mk "text" ())
    [("text", fun _ => (1 : Nat)), ("binary", fun _ => 2)]
    (fun _ => 1) (by decide) (List.mem_cons_self _ _)

/-- C2: for every tagged value whose discriminant is not a key of a
handler table with distinct keys that contains a wildcard entry, `match`
returns the wildcard handler applied to the full original value. -/
theorem match_wildcard (v : Tagged P) (m : Matchers P Out)
    (hstar : Tagged P → Out) (hnod : (keysOf m).Nodup)
    (habs : v.__type ∉ keysOf m) (hmem : ("*", hstar) ∈ m) :
    matchUnion v m = .ok (hstar v) := by
  have hsk : scanKey v.__type m = none := (scanKey_none_iff _ _).mpr habs
  have hse : scanEntries v m = none := by
    rw [scanEntries_eq, hsk]
    rfl
  have hsl : starLookup m = some hstar := starLookup_of_mem _ _ hnod hmem
  simp [matchUnion, hse, hsl]

theorem match_wildcard_witness :
    matchUnion (Tagged.mk "unknown" ())
        [("text", fun _ => (1 : Nat)), ("binary", fun _ => 2),
          ("*", fun _ => 3)] =
      .ok 3 :=
  match_wildcard (Tagged.mk "unknown" ())
    [("text", fun _ => (1 : Nat)), ("binary", fun _ => 2),
      ("*", fun _ => 3)]
    (fun _ => 3) (by decide) (by decide)
    (List.Mem.tail _ (List.Mem.tail _ (List.Mem.head _)))

/-- C3: `match` fails exactly when the discriminant is absent from the
table's keys and no wildcard entry exists, and the single failure mode is
the pattern-unmatched error. -/
theorem match_unmatched_only_failure (v : Tagged P) (m : Matchers P Out)
    (e : JsError) :
    matchUnion v m = .error e ↔
      (e = patternUnmatchedError ∧ v.__type ∉ keysOf m ∧
        "*" ∉ keysOf m) :=
  matchUnion_error_iff v m e

/-- C4: applying the closure returned by `matches` to a value is the same
call as `match` on that value and table, for every value and table. -/
theorem matches_transparent (m : Matchers P Out) (v : Tagged P) :
    matchesUnion m v = matchUnion v m := rfl

/-- C5: when the table holds an entry literally keyed "*" and the value's
discriminant is itself "*", the exact-match scan selects that entry, the
dispatch returns its handler's result, and exactly one handler runs —
the scan precedes and shadows the wildcard lookup, so no double handling
occurs. -/
theorem match_star_exact (v : Tagged P) (m : Matchers P Out)
    (h : Tagged P → Out) (hnod : (keysOf m).Nodup)
    (hv : v.__type = "*") (hmem : ("*", h) ∈ m) :
    scanEntries v m = some (h v) ∧ matchUnion v m = .ok (h v) ∧
      (matchCount v m).2 = 1 := by
  have hmem2 : (v.__type, h) ∈ m := by
    rw [hv]
    exact hmem
  have hsk : scanKey v.__type m = some h := scanKey_of_mem _ _ _ hnod hmem2
  have hse : scanEntries v m = some (h v) := by
    rw [scanEntries_eq, hsk]
    rfl
  have hok : matchUnion v m = .ok (h v) := by
    simp [matchUnion, hse]
  refine ⟨hse, hok, ?_⟩
  rw [matchCount_calls, hok]
  rfl

theorem match_star_exact_witness :
    scanEntries (Tagged.mk "*" ()) [("*", fun _ => (7 : Nat))] = some 7 ∧
    matchUnion (Tagged.mk "*" ()) [("*", fun _ => (7 : Nat))] = .ok 7 ∧
    (matchCount (Tagged.mk "*" ()) [("*", fun _ => (7 : Nat))]).2 = 1 :=
  match_star_exact (Tagged.mk "*" ()) [("*", fun _ => (7 : Nat))]
    (fun _ => 7) (by decide) rfl (List.mem_cons_self _ _)

/-- C6: the invocation count of a `match` call is one exactly when it
returns a result (so a successful call invokes exactly one handler exactly
once), and the call leaves any ambient world and both of its arguments
unchanged — the dispatcher mutates neither the value nor the table. -/
theorem match_frame {σ : Type} (w : σ) (v : Tagged P)
    (m : Matchers P Out) :
    (matchCount v m).2 = (if (matchUnion v m).isOk then 1 else 0) ∧
      matchThread w v m = (matchUnion v m, w, v, m) :=
  ⟨matchCount_calls v m, matchThread_eq w v m⟩

/-- C7: `match` is deterministic and reads only its immediate arguments:
a run from any ambient world produces the same result as a run from any
other, that result is the plain dispatch result, and the world comes back
unchanged. -/
theorem match_pure {σ : Type} (w1 w2 : σ) (v : Tagged P)
    (m : Matchers P Out) :
    (matchThread w1 v m).1 = (matchThread w2 v m).1 ∧
      (matchThread w1 v m).2.1 = w1 ∧
      (matchThread w1 v m).1 = matchUnion v m := by
  simp [matchThread_eq]

/-- C8: every failing `match` call fails with the one plain error value,
whose message field is exactly the misspelled string "Pattern unmacthed";
the error carries nothing else by which callers could discriminate it. -/
theorem match_error_shape (v : Tagged P) (m : Matchers P Out) :
    patternUnmatchedError.message = "Pattern unmacthed" ∧
      ((matchUnion v m).isOk = true ∨
        matchUnion v m = .error patternUnmatchedError) := by
  refine ⟨rfl, ?_⟩
  rcases hm : matchUnion v m with e | out
  · right
    have he := ((matchUnion_error_iff v m e).mp hm).1
    rw [he]
  · left
    rfl

/-- C9: handler selection depends only on the discriminant field: two
values with equal `__type` select the same handler entry of the table (or
both fall to the wildcard, or both fail), and each dispatch result is the
selected handler applied to its own value. -/
theorem match_discriminant_only (v1 v2 : Tagged P) (m : Matchers P Out)
    (h : v1.__type = v2.__type) :
    selectHandler v1.__type m = selectHandler v2.__type m ∧
      matchUnion v1 m = (selectHandler v1.__type m).elim
        (Except.error patternUnmatchedError) (fun f => .ok (f v1)) ∧
      matchUnion v2 m = (selectHandler v2.__type m).elim
        (Except.error patternUnmatchedError) (fun f => .ok (f v2)) :=
  ⟨by rw [h], matchUnion_eq_select v1 m, matchUnion_eq_select v2 m⟩

theorem match_discriminant_only_witness :
    matchUnion (Tagged.mk "a" (0 : Nat)) [("a", fun t => t.payload)] =
      .ok 0 := by
  have hw := match_discriminant_only (Tagged.mk "a" (0 : Nat))
    (Tagged.mk "a" 1) [("a", fun t => t.payload)] rfl
  rw [hw.2.1]
  rfl

/-- C10: a failing `match` call invokes no caller-supplied handler at all:
whenever the dispatch returns an error, the invocation count is zero. -/
theorem match_fail_no_invocation (v : Tagged P) (m : Matchers P Out)
    (e : JsError) (h : matchUnion v m = .error e) :
    (matchCount v m).2 = 0 := by
  rw [matchCount_calls, h]
  rfl

theorem match_fail_no_invocation_witness :
    matchUnion (Tagged.mk "x" ()) ([] : Matchers Unit Nat) =
      .error patternUnmatchedError ∧
    (matchCount (Tagged.mk "x" ()) ([] : Matchers Unit Nat)).2 = 0 :=
  ⟨rfl, match_fail_no_invocation (Tagged.mk "x" ()) []
    patternUnmatchedError rfl⟩

end UnionSpec
